import Mathlib

/-!
# CoffeeCanvas (`src/script.js`) — shallow embedding and verification

This file embeds the item pipeline of the CoffeeCanvas gallery app
(`fetchBatch` / `brew`, the favorites and notes stores, `applySearch`,
`applySort`, `onSearchInput`) as pure Lean functions and proves the
documented properties about them.

Modelling conventions:
* JS runtime inputs that the code observes (`Date.now()`, `Math.random()`,
  `toISOString()`, success or failure of `fetch`) are collected, per network
  round-trip, in a `RoundTrip` record; a whole run is an environment
  `Nat → RoundTrip` giving the values observed by the i-th round-trip.
* `String.prototype.trim` is modelled by `jsTrim` (drop leading and trailing
  whitespace), `toLowerCase` by `jsToLower`, `String.prototype.includes`
  by the scanning function `inclCore`, and `localeCompare` by the total
  lexicographic order `lexLe`/`strLe` (`a.localeCompare(b) <= 0` becomes
  `strLe a b`).
* `Array.prototype.sort` (stable since ES2019) with comparator `cmp` is
  modelled by `List.mergeSort` with the boolean relation `cmp a b ≤ 0`.
* The JS objects backing the favorites and notes localStorage maps are
  modelled as total functions `String → Bool` and `String → Option String`.
* Exceptions (a failing `fetch`, carrying `err.message`) are modelled with
  `Except String`.
-/

namespace CoffeeCanvas

/-- Constant `BASE_URL` (script.js line 21). -/
def BASE_URL : String := "https://coffee.alexflipnote.dev"

/-- Constant `RANDOM_IMAGE_URL` (script.js line 22). -/
def RANDOM_IMAGE_URL : String := BASE_URL ++ "/random"

/-- An item record as produced by `getRandomCoffeeItem` (script.js 160-169). -/
structure Item where
  id : String
  sourceUrl : String
  displayUrl : String
  filename : String
  addedAt : Nat
deriving DecidableEq

/-- Everything one round-trip of `getRandomCoffeeItem` observes from the JS
runtime: whether the `fetch` probe throws (`some msg` = thrown error with
message `msg`), the `Date.now()` / `Math.random().toString(16).slice(2)`
values read when building the cache-buster, the values read by `makeId`,
the (already `toISOString`-formatted) timestamp read by `makeFilename`, and
the `Date.now()` value stored in `addedAt`. -/
structure RoundTrip where
  probeFail : Option String
  probeTime : Nat
  probeRand : String
  idTime : Nat
  idRand : String
  isoTime : String
  addedAt : Nat

/-- JS `String.prototype.trim`: drop leading and trailing whitespace. -/
def jsTrim (s : String) : String :=
  ⟨((s.data.dropWhile Char.isWhitespace).reverse.dropWhile Char.isWhitespace).reverse⟩

/-- Function `makeId` (script.js 125-127): `` `cf_${Date.now()}_${rand}` ``. -/
def makeId (t : Nat) (r : String) : String :=
  "cf_" ++ Nat.repr t ++ "_" ++ r

/-- JS `String.prototype.toLowerCase`, modelled characterwise. -/
def jsToLower (s : String) : String :=
  ⟨s.data.map Char.toLower⟩

/-- Function `makeFilename` (script.js 130-132):
`` `coffee_${new Date().toISOString().replace(/[:.]/g, "-")}.jpg` ``. -/
def makeFilename (iso : String) : String :=
  "coffee_" ++ ⟨iso.data.map fun c => if c = ':' ∨ c = '.' then '-' else c⟩ ++ ".jpg"

/-- The cache-busting query string built in `probeApiReachable`
(script.js 142): `` `t=${Date.now()}_${rand}` ``. -/
def cacheBust (rt : RoundTrip) : String :=
  "t=" ++ Nat.repr rt.probeTime ++ "_" ++ rt.probeRand

/-- Function `probeApiReachable` (script.js 141-154): issues the probe `fetch` (which
may throw) and returns the probe URL. -/
def probeApiReachable (rt : RoundTrip) : Except String String :=
  match rt.probeFail with
  | some e => .error e
  | none => .ok (RANDOM_IMAGE_URL ++ "?" ++ cacheBust rt)

/-- The item built by a successful round-trip (script.js 162-168). -/
def roundTripItem (rt : RoundTrip) : Item :=
  { id := makeId rt.idTime rt.idRand
    sourceUrl := RANDOM_IMAGE_URL ++ "?" ++ cacheBust rt
    displayUrl := RANDOM_IMAGE_URL ++ "?" ++ cacheBust rt
    filename := makeFilename rt.isoTime
    addedAt := rt.addedAt }

/-- Function `getRandomCoffeeItem` (script.js 160-169). -/
def getRandomCoffeeItem (rt : RoundTrip) : Except String Item :=
  (probeApiReachable rt).map fun sourceUrl =>
    { id := makeId rt.idTime rt.idRand
      sourceUrl := sourceUrl
      displayUrl := sourceUrl
      filename := makeFilename rt.isoTime
      addedAt := rt.addedAt }

/-- The loop body of `fetchBatch` (script.js 172-178) starting at loop index
`start` with `n` iterations left: each iteration awaits one round-trip and
pushes its item; the first thrown error aborts the whole loop. -/
def fetchBatchFrom (env : Nat → RoundTrip) (start : Nat) : Nat → Except String (List Item)
  | 0 => .ok []
  | n + 1 => do
    let it ← getRandomCoffeeItem (env start)
    let rest ← fetchBatchFrom env (start + 1) n
    pure (it :: rest)

/-- Function `fetchBatch` (script.js 172-178): `count` strictly sequential round-trips,
results in request order, aborting on the first failure. -/
def fetchBatch (env : Nat → RoundTrip) (count : Nat) : Except String (List Item) :=
  fetchBatchFrom env 0 count

/-- The favorites localStorage map `{ [id]: true }`: presence of a key is
modelled as mapping to `true`. -/
abbrev FavMap := String → Bool

/-- The notes localStorage map `{ [id]: "note text" }`. -/
abbrev NotesMap := String → Option String

/-- Function `toggleFavorite` (script.js 188-193): delete the entry if present,
otherwise set it to `true`. -/
def toggleFavorite (fav : FavMap) (id : String) : FavMap :=
  fun j => if j = id then !fav id else fav j

/-- Function `getNote` (script.js 199): `notes[id] || ""`. -/
def getNote (notes : NotesMap) (id : String) : String :=
  (notes id).getD ""

/-- Function `setNote` (script.js 201-207): store the trimmed note if non-empty,
otherwise delete the entry. -/
def setNote (notes : NotesMap) (id note : String) : NotesMap :=
  let v := jsTrim note
  if v = "" then fun j => if j = id then none else notes j
  else fun j => if j = id then some v else notes j

/-- Function `norm` (script.js 69-71): `(str ?? "").toString().toLowerCase().trim()`. -/
def norm (s : String) : String :=
  jsTrim (jsToLower s)

/-- The character class of the `isValidSearch` regex `[a-zA-Z0-9 _#-]`
(script.js 79). -/
def allowedChar (c : Char) : Bool :=
  ('a' ≤ c && c ≤ 'z') || ('A' ≤ c && c ≤ 'Z') || ('0' ≤ c && c ≤ '9') ||
    c = ' ' || c = '_' || c = '#' || c = '-'

/-- Function `isValidSearch` (script.js 77-80): empty trimmed input is valid, otherwise
the trimmed input must match `/^[a-zA-Z0-9 _#-]+$/`. -/
def isValidSearch (str : String) : Bool :=
  if (jsTrim str).length = 0 then true
  else !(jsTrim str).data.isEmpty && (jsTrim str).data.all allowedChar

/-- Test that `needle` is an anchored head of `hay` (the anchored comparison JS `includes`
performs at each scan position). -/
def isPre : List Char → List Char → Bool
  | [], _ => true
  | _ :: _, [] => false
  | a :: as, b :: bs => (a = b) && isPre as bs

/-- Scanning loop of JS `String.prototype.includes`: try an anchored match at
every position of `hay`. -/
def inclCore (needle : List Char) : List Char → Bool
  | [] => needle.isEmpty
  | c :: rest => isPre needle (c :: rest) || inclCore needle rest

/-- JS `hay.includes(needle)`. -/
def strIncludes (hay needle : String) : Bool :=
  inclCore needle.data hay.data

/-- Lexicographic comparison of char lists: the model of JS
`a.localeCompare(b) <= 0` (a total order on strings). -/
def lexLe : List Char → List Char → Bool
  | [], _ => true
  | _ :: _, [] => false
  | a :: as, b :: bs => if a = b then lexLe as bs else decide (a < b)

/-- Comparison `a.localeCompare(b) <= 0` on strings. -/
def strLe (a b : String) : Bool :=
  lexLe a.data b.data

/-- Function `applySearch` (script.js 332-342). -/
def applySearch (notes : NotesMap) (list : List Item) (q : String) : List Item :=
  let qq := norm q
  if qq = "" then list
  else list.filter fun it =>
    let hay1 := norm it.filename
    let hay2 := norm ((notes it.id).getD "")
    strIncludes hay1 qq || strIncludes hay2 qq

/-- Function `applySort` (script.js 344-370). Each branch copies the list and sorts it
with the ES2019 stable sort; comparator `cmp` becomes the boolean relation
`cmp a b ≤ 0`, with `localeCompare` modelled by `strLe`. -/
def applySort (fav : FavMap) (list : List Item) (mode : String) : List Item :=
  if mode = "newest" then
    list.mergeSort fun a b => decide (b.addedAt ≤ a.addedAt)
  else if mode = "az" then
    list.mergeSort fun a b => strLe a.filename b.filename
  else if mode = "za" then
    list.mergeSort fun a b => strLe b.filename a.filename
  else if mode = "fav" then
    list.mergeSort fun a b =>
      if fav a.id = fav b.id then decide (b.addedAt ≤ a.addedAt) else fav a.id
  else list

/-- The mutable application state touched by the handlers we verify: the item
collection, current query and sort mode, the `errorBox` text set by
`showError`, and the `isLoading` flag. -/
structure AppState where
  items : List Item
  query : String
  sortMode : String
  errorMsg : String
  isLoading : Bool
deriving DecidableEq

/-- Function `onSearchInput` (script.js 374-386): invalid input only shows a message;
valid input clears the message and installs the trimmed query. -/
def onSearchInput (raw : String) (s : AppState) : AppState :=
  let trimmed := jsTrim raw
  if !isValidSearch trimmed then
    { s with errorMsg := "Invalid input: use letters, numbers, spaces, -, _, or # only." }
  else
    { s with errorMsg := "", query := trimmed }

/-- Function `brew` (script.js 393-412). The state reflects the handler having run to
completion: `setLoading(true)` … `finally setLoading(false)` nets to
`isLoading = false` on every path that fetches. -/
def brew (env : Nat → RoundTrip) (count : Int) (s : AppState) : AppState :=
  if count ≤ 0 then
    { s with errorMsg := "Invalid request: brew count must be greater than 0." }
  else
    match fetchBatch env count.toNat with
    | .ok batch =>
        { s with items := batch ++ s.items, errorMsg := "", isLoading := false }
    | .error e =>
        { s with
            errorMsg := "Failed API call: " ++ (if e = "" then "Failed to fetch" else e),
            isLoading := false }

/-- Function `clearGallery` (script.js 414-417). -/
def clearGallery (s : AppState) : AppState :=
  { s with items := [] }

/-- The filtered-then-sorted view derived in `render` (script.js 215-216). -/
def derivedView (notes : NotesMap) (fav : FavMap) (s : AppState) : List Item :=
  applySort fav (applySearch notes s.items s.query) s.sortMode

/-- Numeric value of a decimal digit character (used to decode `Nat.repr`). -/
def charVal (c : Char) : Nat := c.toNat - 48

/-- Value of a decimal digit string (used to decode `Nat.repr`). -/
def digitsVal : List Char → Nat
  | [] => 0
  | c :: cs => charVal c * 10 ^ cs.length + digitsVal cs

/-! ### Concrete runs used to instantiate the theorems -/

/-- A round-trip whose probe succeeds. -/
def rtOk : RoundTrip :=
  { probeFail := none, probeTime := 10, probeRand := "r0", idTime := 20,
    idRand := "s0", isoTime := "2025-01-01T00-00-00-000Z", addedAt := 30 }

/-- A round-trip whose probe `fetch` throws. -/
def rtBad : RoundTrip :=
  { probeFail := some "NetworkError when attempting to fetch resource.",
    probeTime := 11, probeRand := "r1", idTime := 21, idRand := "s1",
    isoTime := "2025-01-01T00-00-01-000Z", addedAt := 31 }

/-- A run whose first round-trip succeeds and whose second fails. -/
def envSecondFails : Nat → RoundTrip :=
  fun i => if i = 0 then rtOk else rtBad

/-- A run in which every round-trip succeeds but `Date.now()` and
`Math.random()` return the same values each time. -/
def envStuck : Nat → RoundTrip :=
  fun _ => rtOk

/-- The batch `envStuck` produces on a 2-item fetch. -/
def stuckBatch : List Item :=
  [roundTripItem rtOk, roundTripItem rtOk]

/-- A run in which every round-trip succeeds and the clocks advance. -/
def envTick : Nat → RoundTrip :=
  fun i =>
    { probeFail := none, probeTime := 100 + i, probeRand := "p", idTime := 200 + i,
      idRand := "q", isoTime := "2025-01-01T00-00-02-000Z", addedAt := 300 + i }

/-- The batch `envTick` produces on a 2-item fetch. -/
def tickBatch : List Item :=
  [roundTripItem (envTick 0), roundTripItem (envTick 1)]

/-- An already-present gallery item. -/
def itemN : Item :=
  { id := "id1", sourceUrl := "u", displayUrl := "u",
    filename := "Coffee_ABC.jpg", addedAt := 5 }

/-- Two distinct items with the same filename (a comparator tie). -/
def itTieA : Item :=
  { id := "ta", sourceUrl := "u", displayUrl := "u", filename := "f.jpg", addedAt := 0 }

/-- See `itTieA`. -/
def itTieB : Item :=
  { id := "tb", sourceUrl := "u", displayUrl := "u", filename := "f.jpg", addedAt := 1 }

/-- Two items with distinct filenames. -/
def itW1 : Item :=
  { id := "w1", sourceUrl := "u", displayUrl := "u", filename := "a.jpg", addedAt := 5 }

/-- See `itW1`. -/
def itW2 : Item :=
  { id := "w2", sourceUrl := "u", displayUrl := "u", filename := "b.jpg", addedAt := 3 }

/-- A favorites map marking nothing. -/
def favNone : FavMap := fun _ => false

/-- A notes map with one note. -/
def notesW : NotesMap := fun j => if j = "id1" then some "Great Espresso" else none

/-- An application state used to instantiate the handler theorems. -/
def stateW : AppState :=
  { items := [itemN], query := "coffee", sortMode := "newest",
    errorMsg := "", isLoading := false }

/-! ### The order `lexLe` (the model of `localeCompare`) is a total preorder -/

/-- Totality of `lexLe`. -/
theorem lexLe_total : ∀ a b, (lexLe a b || lexLe b a) = true := by
  intro a
  induction a with
  | nil => intro b; simp [lexLe]
  | cons x xs ih =>
    intro b
    cases b with
    | nil => simp [lexLe]
    | cons y ys =>
      by_cases h : x = y
      · subst h; simpa [lexLe] using ih ys
      · have h2 : y ≠ x := fun e => h e.symm
        simp only [lexLe, if_neg h, if_neg h2, Bool.or_eq_true, decide_eq_true_eq]
        exact lt_or_gt_of_ne h |>.imp id id

/-- Reflexivity of `lexLe`. -/
theorem lexLe_refl (a : List Char) : lexLe a a = true := by
  induction a with
  | nil => simp [lexLe]
  | cons x xs ih => simpa [lexLe] using ih

/-- Antisymmetry of `lexLe`. -/
theorem lexLe_antisymm : ∀ a b, lexLe a b = true → lexLe b a = true → a = b := by
  intro a
  induction a with
  | nil =>
    intro b _ hba
    cases b with
    | nil => rfl
    | cons y ys => simp [lexLe] at hba
  | cons x xs ih =>
    intro b hab hba
    cases b with
    | nil => simp [lexLe] at hab
    | cons y ys =>
      by_cases h : x = y
      · subst h
        simp only [lexLe, if_pos rfl] at hab hba
        rw [ih ys hab hba]
      · have h2 : y ≠ x := fun e => h e.symm
        simp only [lexLe, if_neg h, if_neg h2, decide_eq_true_eq] at hab hba
        exact absurd hba (not_lt_of_lt hab)

/-- Transitivity of `lexLe`. -/
theorem lexLe_trans : ∀ a b c, lexLe a b = true → lexLe b c = true → lexLe a c = true := by
  intro a
  induction a with
  | nil => intro b c _ _; simp [lexLe]
  | cons x xs ih =>
    intro b c hab hbc
    cases b with
    | nil => simp [lexLe] at hab
    | cons y ys =>
      cases c with
      | nil => simp [lexLe] at hbc
      | cons z zs =>
        by_cases hxy : x = y <;> by_cases hyz : y = z
        · subst hxy; subst hyz
          simp only [lexLe, if_pos rfl] at hab hbc ⊢
          exact ih ys zs hab hbc
        · subst hxy
          simp only [lexLe, if_neg hyz] at hbc ⊢
          exact hbc
        · subst hyz
          simp only [lexLe, if_neg hxy] at hab ⊢
          exact hab
        · simp only [lexLe, if_neg hxy, if_neg hyz, decide_eq_true_eq] at hab hbc
          have hxz : x < z := lt_trans hab hbc
          simp only [lexLe, if_neg (ne_of_lt hxz), decide_eq_true_eq]
          exact hxz

/-! ### `Nat.repr` decodes to its argument, contains no underscore, and is injective -/

/-- Decoding: `charVal` inverts `Nat.digitChar` on decimal digits. -/
theorem digitChar_val (k : Nat) (h : k < 10) : charVal (Nat.digitChar k) = k := by
  interval_cases k <;> decide

/-- Correctness: `Nat.toDigitsCore` produces the decimal digits of its argument. -/
theorem toDigitsCore_val : ∀ (fuel n : Nat) (ds : List Char), n < 10 ^ fuel →
    digitsVal (Nat.toDigitsCore 10 fuel n ds) = n * 10 ^ ds.length + digitsVal ds := by
  intro fuel
  induction fuel with
  | zero =>
    intro n ds h
    simp only [pow_zero, Nat.lt_one_iff] at h
    subst h
    simp [Nat.toDigitsCore]
  | succ f ih =>
    intro n ds h
    simp only [Nat.toDigitsCore]
    by_cases h0 : n / 10 = 0
    · simp only [h0, if_pos rfl]
      have hn : n < 10 := by omega
      rw [Nat.mod_eq_of_lt hn]
      simp [digitsVal, digitChar_val n hn]
    · rw [if_neg h0]
      have hlt : n / 10 < 10 ^ f := by
        rw [Nat.div_lt_iff_lt_mul (by norm_num)]
        rw [← pow_succ]
        exact h
      rw [ih (n / 10) (Nat.digitChar (n % 10) :: ds) hlt]
      simp only [digitsVal, List.length_cons]
      rw [digitChar_val (n % 10) (Nat.mod_lt n (by norm_num))]
      have hdm : n / 10 * 10 + n % 10 = n := by omega
      calc n / 10 * 10 ^ (ds.length + 1) + (n % 10 * 10 ^ ds.length + digitsVal ds)
          = (n / 10 * 10 + n % 10) * 10 ^ ds.length + digitsVal ds := by ring
        _ = n * 10 ^ ds.length + digitsVal ds := by rw [hdm]

/-- Decoding `Nat.toDigits 10 n` gives back `n`. -/
theorem val_toDigits (n : Nat) : digitsVal (Nat.toDigits 10 n) = n := by
  have h : n < 10 ^ (n + 1) := by
    calc n < 2 ^ n := Nat.lt_two_pow n
      _ ≤ 10 ^ n := Nat.pow_le_pow_left (by norm_num) n
      _ ≤ 10 ^ (n + 1) := Nat.pow_le_pow_right (by norm_num) (Nat.le_succ n)
  simpa [Nat.toDigits] using toDigitsCore_val (n + 1) n [] h

/-- Injectivity of `Nat.repr`. -/
theorem repr_injective {m n : Nat} (h : Nat.repr m = Nat.repr n) : m = n := by
  have hd : Nat.toDigits 10 m = Nat.toDigits 10 n := by
    have := congrArg String.data h
    simpa [Nat.repr, List.asString] using this
  have := congrArg digitsVal hd
  rwa [val_toDigits, val_toDigits] at this

/-- No underscore: `Nat.digitChar` never produces one. -/
theorem digitChar_ne_underscore (k : Nat) : Nat.digitChar k ≠ '_' := by
  rcases Nat.lt_or_ge k 16 with h | h
  · interval_cases k <;> decide
  · unfold Nat.digitChar
    repeat rw [if_neg (by omega)]
    decide

/-- No underscore: `Nat.toDigitsCore` never produces one. -/
theorem toDigitsCore_ne_underscore : ∀ (fuel n : Nat) (ds : List Char),
    (∀ c ∈ ds, c ≠ '_') → ∀ c ∈ Nat.toDigitsCore 10 fuel n ds, c ≠ '_' := by
  intro fuel
  induction fuel with
  | zero => intro n ds hds; simpa [Nat.toDigitsCore] using hds
  | succ f ih =>
    intro n ds hds
    simp only [Nat.toDigitsCore]
    by_cases h0 : n / 10 = 0
    · simp only [h0, if_pos rfl]
      intro c hc
      rcases List.mem_cons.mp hc with h | h
      · subst h; exact digitChar_ne_underscore _
      · exact hds c h
    · rw [if_neg h0]
      apply ih
      intro c hc
      rcases List.mem_cons.mp hc with h | h
      · subst h; exact digitChar_ne_underscore _
      · exact hds c h

/-- No underscore: `Nat.repr` never contains one. -/
theorem repr_ne_underscore (n : Nat) : ∀ c ∈ (Nat.repr n).data, c ≠ '_' := by
  intro c hc
  have : c ∈ Nat.toDigitsCore 10 (n + 1) n [] := by
    simpa [Nat.repr, List.asString, Nat.toDigits] using hc
  exact toDigitsCore_ne_underscore (n + 1) n [] (by simp) c this

/-- A list of the form `a ++ '_' :: b` with no underscore in `a` determines
`a` and `b`. -/
theorem underscore_split : ∀ (a1 : List Char) (a2 b1 b2 : List Char),
    '_' ∉ a1 → '_' ∉ a2 → a1 ++ '_' :: b1 = a2 ++ '_' :: b2 → a1 = a2 ∧ b1 = b2 := by
  intro a1
  induction a1 with
  | nil =>
    intro a2 b1 b2 _ h2 h
    cases a2 with
    | nil => simpa using h
    | cons y ys =>
      simp only [List.nil_append, List.cons_append, List.cons.injEq] at h
      obtain ⟨he, _⟩ := h
      subst he
      exact absurd (List.mem_cons_self _ _) h2
  | cons x xs ih =>
    intro a2 b1 b2 h1 h2 h
    cases a2 with
    | nil =>
      simp only [List.cons_append, List.nil_append, List.cons.injEq] at h
      obtain ⟨he, _⟩ := h
      subst he
      exact absurd (List.mem_cons_self _ _) h1
    | cons y ys =>
      simp only [List.cons_append, List.cons.injEq] at h
      obtain ⟨hxy, ht⟩ := h
      have h1t : '_' ∉ xs := fun hm => h1 (List.mem_cons_of_mem _ hm)
      have h2t : '_' ∉ ys := fun hm => h2 (List.mem_cons_of_mem _ hm)
      obtain ⟨ha, hb⟩ := ih ys b1 b2 h1t h2t ht
      exact ⟨by rw [hxy, ha], hb⟩

/-- Injectivity: `makeId` is injective in the `(Date.now(), random-suffix)` pair it is
built from. -/
theorem makeId_inj {t1 t2 : Nat} {r1 r2 : String}
    (h : makeId t1 r1 = makeId t2 r2) : t1 = t2 ∧ r1 = r2 := by
  have hd := congrArg String.data h
  simp only [makeId, String.data_append] at hd
  simp only [List.append_assoc, List.singleton_append, List.cons_append,
    List.nil_append, List.cons.injEq, true_and] at hd
  have hsplit := underscore_split (Nat.repr t1).data (Nat.repr t2).data r1.data r2.data
    (fun hm => repr_ne_underscore t1 '_' hm rfl)
    (fun hm => repr_ne_underscore t2 '_' hm rfl) hd
  refine ⟨repr_injective (String.ext hsplit.1), String.ext hsplit.2⟩

/-! ### Behaviour of the batch fetch -/

/-- A round-trip whose probe succeeds yields its item. -/
theorem getRandomCoffeeItem_ok {rt : RoundTrip} (h : rt.probeFail = none) :
    getRandomCoffeeItem rt = .ok (roundTripItem rt) := by
  simp [getRandomCoffeeItem, probeApiReachable, h, Except.map, roundTripItem]

/-- A round-trip whose probe throws propagates the error. -/
theorem getRandomCoffeeItem_error {rt : RoundTrip} {e : String} (h : rt.probeFail = some e) :
    getRandomCoffeeItem rt = .error e := by
  simp [getRandomCoffeeItem, probeApiReachable, h, Except.map]

/-- A successful run of the fetch loop returns exactly the items of its
round-trips, in request order. -/
theorem fetchBatchFrom_ok_eq (env : Nat → RoundTrip) :
    ∀ (n start : Nat) (out : List Item),
      fetchBatchFrom env start n = .ok out →
      out = (List.range n).map fun k => roundTripItem (env (start + k)) := by
  intro n
  induction n with
  | zero =>
    intro start out h
    simp only [fetchBatchFrom, Except.ok.injEq] at h
    simp [← h]
  | succ m ih =>
    intro start out h
    simp only [fetchBatchFrom] at h
    cases hp : (env start).probeFail with
    | some e =>
      rw [getRandomCoffeeItem_error hp] at h
      simp [Bind.bind, Except.bind] at h
    | none =>
      rw [getRandomCoffeeItem_ok hp] at h
      cases hr : fetchBatchFrom env (start + 1) m with
      | error e =>
        rw [hr] at h
        simp [Bind.bind, Except.bind] at h
      | ok rest =>
        rw [hr] at h
        simp only [Bind.bind, Except.bind, pure, Except.pure, Except.ok.injEq] at h
        have hrest := ih (start + 1) rest hr
        have harith : ∀ k, start + 1 + k = start + (k + 1) := by omega
        rw [← h, hrest]
        simp [List.range_succ_eq_map, List.map_map, Function.comp, harith]

/-- If any round-trip among the first `n` fails, the fetch loop aborts with
an error. -/
theorem fetchBatchFrom_error (env : Nat → RoundTrip) :
    ∀ (n start : Nat),
      (∃ k, k < n ∧ (env (start + k)).probeFail ≠ none) →
      ∃ e, fetchBatchFrom env start n = .error e := by
  intro n
  induction n with
  | zero =>
    intro start h
    obtain ⟨k, hk, _⟩ := h
    omega
  | succ m ih =>
    intro start h
    obtain ⟨k, hk, hf⟩ := h
    cases hp : (env start).probeFail with
    | some e =>
      refine ⟨e, ?_⟩
      simp only [fetchBatchFrom]
      rw [getRandomCoffeeItem_error hp]
      simp [Bind.bind, Except.bind]
    | none =>
      have hk0 : k ≠ 0 := by
        rintro rfl
        rw [Nat.add_zero] at hf
        exact hf hp
      obtain ⟨k0, rfl⟩ : ∃ k0, k = k0 + 1 := ⟨k - 1, by omega⟩
      have hf1 : (env (start + 1 + k0)).probeFail ≠ none := by
        have harith : start + 1 + k0 = start + (k0 + 1) := by omega
        rw [harith]
        exact hf
      obtain ⟨e, he⟩ := ih (start + 1) ⟨k0, by omega, hf1⟩
      refine ⟨e, ?_⟩
      simp only [fetchBatchFrom]
      rw [getRandomCoffeeItem_ok hp]
      simp [Bind.bind, Except.bind, he]

/-- C1: for every count and every initial Item Collection, if any round-trip
of the batch fetch fails (in particular a failure on the second round-trip),
`brew` leaves the Item Collection exactly as it was before the call: no
partially fetched items of that batch are added. -/
theorem brew_failed_batch_keeps_items (env : Nat → RoundTrip) (count : Int) (s : AppState)
    (h : ∃ k, k < count.toNat ∧ (env k).probeFail ≠ none) :
    (brew env count s).items = s.items := by
  unfold brew
  by_cases hc : count ≤ 0
  · rw [if_pos hc]
  · rw [if_neg hc]
    obtain ⟨k, hk, hf⟩ := h
    obtain ⟨e, he⟩ := fetchBatchFrom_error env count.toNat 0 ⟨k, hk, by simpa using hf⟩
    unfold fetchBatch
    rw [he]

/-- Witness for C1: a 2-item brew whose second round-trip fails leaves the
gallery's single item untouched. -/
theorem brew_failed_batch_keeps_items_witness :
    (brew envSecondFails 2 stateW).items = [itemN] :=
  brew_failed_batch_keeps_items envSecondFails 2 stateW ⟨1, by decide, by decide⟩

/-- C2 (amended): a successful `fetchBatch(n)` for positive `n` returns
exactly `n` items, in request order (the `i`-th item is the one built by the
`i`-th round-trip), and — provided the `(Date.now(), Math.random())` pairs
read by `makeId` on distinct round-trips are distinct — the ids of the
returned items are pairwise distinct. (Without that proviso the claim fails,
see the counterexample: the code itself does not enforce id uniqueness.) -/
theorem fetchBatch_ok_length_order_ids (env : Nat → RoundTrip) (n : Nat) (out : List Item)
    (_hn : 0 < n) (hok : fetchBatch env n = .ok out)
    (hdist : ∀ i, i < n → ∀ j, j < n → i ≠ j →
      ((env i).idTime, (env i).idRand) ≠ ((env j).idTime, (env j).idRand)) :
    out.length = n ∧
    (∀ i, i < n → out[i]? = some (roundTripItem (env i))) ∧
    out.Pairwise fun a b => a.id ≠ b.id := by
  have hout : out = (List.range n).map fun k => roundTripItem (env k) := by
    have := fetchBatchFrom_ok_eq env n 0 out hok
    simpa using this
  subst hout
  refine ⟨by simp, ?_, ?_⟩
  · intro i hi
    simp [List.getElem?_map, List.getElem?_range hi]
  · rw [List.pairwise_map]
    have h1 : (List.range n).Pairwise (· < ·) := List.pairwise_lt_range n
    have h2 := List.Pairwise.and_mem.mp h1
    refine h2.imp ?_
    rintro a b ⟨ha, hb, hab⟩
    rw [List.mem_range] at ha hb
    intro hid
    have hmk : makeId (env a).idTime (env a).idRand = makeId (env b).idTime (env b).idRand := hid
    obtain ⟨ht, hr⟩ := makeId_inj hmk
    exact hdist a ha b hb (Nat.ne_of_lt hab) (by rw [ht, hr])

/-- Witness for C2: a 2-item fetch against a run whose clock advances. -/
theorem fetchBatch_ok_length_order_ids_witness :
    tickBatch.length = 2 ∧
    (∀ i, i < 2 → tickBatch[i]? = some (roundTripItem (envTick i))) ∧
    tickBatch.Pairwise fun a b => a.id ≠ b.id :=
  fetchBatch_ok_length_order_ids envTick 2 tickBatch (by decide) rfl (by decide)

/-- Counterexample to C2 as stated: if `Date.now()` and `Math.random()`
return the same values on both round-trips (which nothing in the code
excludes), a successful 2-item batch carries two items with the same id. -/
theorem fetchBatch_duplicate_ids_counterexample :
    fetchBatch envStuck 2 = Except.ok stuckBatch ∧
    ¬ stuckBatch.Pairwise fun a b => a.id ≠ b.id := by
  constructor
  · rfl
  · intro h
    cases h with
    | cons h1 _ => exact h1 _ (List.mem_cons_self _ _) rfl

/-! ### Favorites, notes, filtering, unknown sort modes -/

/-- C8: toggling a favorite twice restores the favorites map exactly. -/
theorem toggleFavorite_involutive (fav : FavMap) (id : String) :
    toggleFavorite (toggleFavorite fav id) id = fav := by
  funext j
  by_cases h : j = id
  · subst h; simp [toggleFavorite]
  · simp [toggleFavorite, h]

/-- C9: `toggleFavorite id` and `setNote id` leave the entry of every other
key in their respective maps unchanged. -/
theorem toggleFavorite_setNote_frame (fav : FavMap) (notes : NotesMap)
    (id note : String) (j : String) (hj : j ≠ id) :
    toggleFavorite fav id j = fav j ∧ setNote notes id note j = notes j := by
  constructor
  · simp [toggleFavorite, hj]
  · simp only [setNote]
    split <;> simp [hj]

/-- Witness for C9 at concrete keys. -/
theorem toggleFavorite_setNote_frame_witness :
    toggleFavorite favNone "a" "b" = favNone "b" ∧
    setNote notesW "a" "hi" "b" = notesW "b" :=
  toggleFavorite_setNote_frame favNone notesW "a" "hi" "b" (by decide)

/-- C7: setting a whitespace-only note removes the entry (so `getNote`
returns the empty string); setting a note with content stores its trimmed
value. -/
theorem setNote_trim_semantics (notes : NotesMap) (id note : String) :
    (jsTrim note = "" →
      setNote notes id note id = none ∧ getNote (setNote notes id note) id = "") ∧
    (jsTrim note ≠ "" → setNote notes id note id = some (jsTrim note)) := by
  constructor
  · intro h
    simp [setNote, h, getNote]
  · intro h
    simp [setNote, h]

/-- Witness for C7: a `"   "` note deletes, a `" x "` note stores `"x"`. -/
theorem setNote_trim_semantics_witness :
    (setNote notesW "a" "   " "a" = none ∧ getNote (setNote notesW "a" "   ") "a" = "") ∧
    setNote notesW "a" " x " "a" = some "x" :=
  ⟨(setNote_trim_semantics notesW "a" "   ").1 (by decide),
   (setNote_trim_semantics notesW "a" " x ").2 (by decide)⟩

/-- C10: the filter returns a subsequence of its input — every retained item
occurs in the input, nothing is duplicated or synthesized, and relative
order is preserved. -/
theorem applySearch_sublist (notes : NotesMap) (l : List Item) (q : String) :
    (applySearch notes l q).Sublist l := by
  unfold applySearch
  by_cases h : norm q = ""
  · simp [h]
  · simp only [if_neg h]
    exact List.filter_sublist l

/-- C5: for a mode other than the four known ones, `applySort` returns its
input unchanged. (In this embedding `applySort` is a pure function of its
input, which is the counterpart of "sorting never mutates the input
sequence; it operates on a copy".) -/
theorem applySort_unknown_mode_identity (fav : FavMap) (l : List Item) (mode : String)
    (h1 : mode ≠ "newest") (h2 : mode ≠ "az") (h3 : mode ≠ "za") (h4 : mode ≠ "fav") :
    applySort fav l mode = l := by
  simp [applySort, h1, h2, h3, h4]

/-- Witness for C5 at the unknown mode `"random"`. -/
theorem applySort_unknown_mode_identity_witness :
    applySort favNone [itW1, itW2] "random" = [itW1, itW2] :=
  applySort_unknown_mode_identity favNone [itW1, itW2] "random"
    (by decide) (by decide) (by decide) (by decide)

/-! ### The scanning loop of `includes` decides substring containment -/

/-- Lemma: `isPre` decides "needle starts hay". -/
theorem isPre_iff : ∀ needle hay, isPre needle hay = true ↔ ∃ t, hay = needle ++ t := by
  intro needle
  induction needle with
  | nil => intro hay; simp [isPre]
  | cons a as ih =>
    intro hay
    cases hay with
    | nil => simp [isPre]
    | cons b bs =>
      simp only [isPre, Bool.and_eq_true, decide_eq_true_eq, ih bs, List.cons_append,
        List.cons.injEq]
      constructor
      · rintro ⟨rfl, t, rfl⟩
        exact ⟨t, rfl, rfl⟩
      · rintro ⟨t, rfl, rfl⟩
        exact ⟨rfl, t, rfl⟩

/-- Lemma: `inclCore` decides substring containment. -/
theorem inclCore_iff : ∀ hay needle, inclCore needle hay = true ↔
    ∃ s t, hay = s ++ needle ++ t := by
  intro hay
  induction hay with
  | nil =>
    intro needle
    simp only [inclCore, List.isEmpty_iff]
    constructor
    · rintro rfl
      exact ⟨[], [], rfl⟩
    · rintro ⟨s, t, h⟩
      rcases List.append_eq_nil.mp (List.append_eq_nil.mp h.symm).1 with ⟨_, h2⟩
      exact h2
  | cons c rest ih =>
    intro needle
    simp only [inclCore, Bool.or_eq_true, isPre_iff, ih]
    constructor
    · rintro (⟨t, ht⟩ | ⟨s, t, hst⟩)
      · exact ⟨[], t, by simpa using ht⟩
      · exact ⟨c :: s, t, by simp [hst]⟩
    · rintro ⟨s, t, hst⟩
      cases s with
      | nil => exact Or.inl ⟨t, by simpa using hst⟩
      | cons x xs =>
        right
        simp only [List.cons_append, List.append_assoc, List.cons.injEq] at hst
        exact ⟨xs, t, by simp [hst.2]⟩

/-- C4: the search filter is the identity on an empty normalized query, and
otherwise retains an item exactly when the normalized query occurs as a
substring of the item's normalized filename or of its normalized note
(an absent note acting as the empty string). -/
theorem applySearch_spec (notes : NotesMap) (l : List Item) (q : String) :
    (norm q = "" → applySearch notes l q = l) ∧
    (norm q ≠ "" → ∀ x : Item,
      x ∈ applySearch notes l q ↔
        x ∈ l ∧ ((∃ s t, (norm x.filename).data = s ++ (norm q).data ++ t) ∨
                 (∃ s t, (norm ((notes x.id).getD "")).data = s ++ (norm q).data ++ t))) := by
  constructor
  · intro h
    simp [applySearch, h]
  · intro h x
    simp only [applySearch, if_neg h, List.mem_filter, Bool.or_eq_true, strIncludes,
      inclCore_iff]

/-- Witness for C4: a whitespace-only query keeps the gallery, and the query
`"abc"` matches the filename `"Coffee_ABC.jpg"`. -/
theorem applySearch_spec_witness :
    applySearch notesW [itemN] "   " = [itemN] ∧
    (itemN ∈ applySearch notesW [itemN] "abc" ↔
      itemN ∈ [itemN] ∧
        ((∃ s t, (norm itemN.filename).data = s ++ (norm "abc").data ++ t) ∨
         (∃ s t, (norm ((notesW itemN.id).getD "")).data = s ++ (norm "abc").data ++ t))) :=
  ⟨(applySearch_spec notesW [itemN] "   ").1 rfl,
   (applySearch_spec notesW [itemN] "abc").2 (by decide) itemN⟩

/-! ### `jsTrim` is idempotent; invalid search input is rejected -/

/-- Left-trimming after right-trimming a left-trimmed list does nothing. -/
theorem rdropWhile_of_dropWhile_self {α : Type} {p : α → Bool} (l : List α) :
    ((l.dropWhile p).rdropWhile p).dropWhile p = (l.dropWhile p).rdropWhile p := by
  rcases hrm : (l.dropWhile p).rdropWhile p with _ | ⟨c, rest⟩
  · simp
  · obtain ⟨u, hu⟩ : ∃ u, (l.dropWhile p).rdropWhile p ++ u = l.dropWhile p := by
      obtain ⟨t, ht⟩ := List.dropWhile_suffix (l := (l.dropWhile p).reverse) p
      refine ⟨t.reverse, ?_⟩
      have h2 := congrArg List.reverse ht
      simpa [List.rdropWhile] using h2
    rw [hrm] at hu
    have hm : l.dropWhile p = c :: (rest ++ u) := by
      rw [← hu]; simp
    have h0 : 0 < (l.dropWhile p).length := by rw [hm]; simp
    have hget := List.dropWhile_get_zero_not (p := p) l h0
    have hc : ¬ p c := by
      have hc0 : (l.dropWhile p).get ⟨0, h0⟩ = c := by simp [hm]
      rwa [hc0] at hget
    rw [List.dropWhile_cons, if_neg hc]

/-- JS `trim` is idempotent. -/
theorem jsTrim_idem (s : String) : jsTrim (jsTrim s) = jsTrim s := by
  apply String.ext
  show ((List.rdropWhile Char.isWhitespace
      (s.data.dropWhile Char.isWhitespace)).dropWhile Char.isWhitespace).rdropWhile
        Char.isWhitespace
    = List.rdropWhile Char.isWhitespace (s.data.dropWhile Char.isWhitespace)
  rw [rdropWhile_of_dropWhile_self]
  exact List.rdropWhile_idempotent _ _

/-- C6: a search input whose trimmed form is non-empty and contains a
character outside the allowed class is rejected: the handler only surfaces
the error message, keeping the query — and hence the derived
filtered/sorted view — unchanged. -/
theorem onSearchInput_invalid_input_rejected (raw : String) (s : AppState)
    (hne : jsTrim raw ≠ "")
    (hbad : ∃ c ∈ (jsTrim raw).data, allowedChar c = false) :
    onSearchInput raw s =
      { s with errorMsg := "Invalid input: use letters, numbers, spaces, -, _, or # only." } ∧
    (onSearchInput raw s).query = s.query ∧
    (onSearchInput raw s).items = s.items ∧
    ∀ notes fav, derivedView notes fav (onSearchInput raw s) = derivedView notes fav s := by
  have hval : isValidSearch (jsTrim raw) = false := by
    unfold isValidSearch
    rw [jsTrim_idem]
    have hlen : ¬ (jsTrim raw).length = 0 := by
      intro h0
      apply hne
      apply String.ext
      exact List.length_eq_zero.mp h0
    rw [if_neg hlen]
    obtain ⟨c, hc, hcbad⟩ := hbad
    have hall : (jsTrim raw).data.all allowedChar = false :=
      List.all_eq_false.mpr ⟨c, hc, by simp [hcbad]⟩
    simp [hall]
  have hrun : onSearchInput raw s =
      { s with errorMsg := "Invalid input: use letters, numbers, spaces, -, _, or # only." } := by
    unfold onSearchInput
    simp [hval]
  refine ⟨hrun, by rw [hrun], by rw [hrun], ?_⟩
  intro notes fav
  rw [hrun]
  rfl

/-- Witness for C6: the input `"abc!"` is rejected without touching the view. -/
theorem onSearchInput_invalid_input_rejected_witness :
    onSearchInput "abc!" stateW =
      { stateW with
          errorMsg := "Invalid input: use letters, numbers, spaces, -, _, or # only." } ∧
    (onSearchInput "abc!" stateW).query = stateW.query ∧
    (onSearchInput "abc!" stateW).items = stateW.items ∧
    ∀ notes fav,
      derivedView notes fav (onSearchInput "abc!" stateW) = derivedView notes fav stateW :=
  onSearchInput_invalid_input_rejected "abc!" stateW (by decide) (by decide)

/-! ### The `za` sort of an `az`-sorted list, and the `newest` sort -/

/-- The `"az"` branch of `applySort`. -/
theorem applySort_az_eq (fav : FavMap) (l : List Item) :
    applySort fav l "az" = l.mergeSort fun a b => strLe a.filename b.filename := rfl

/-- The `"za"` branch of `applySort`. -/
theorem applySort_za_eq (fav : FavMap) (l : List Item) :
    applySort fav l "za" = l.mergeSort fun a b => strLe b.filename a.filename := rfl

/-- The `"newest"` branch of `applySort`. -/
theorem applySort_newest_eq (fav : FavMap) (l : List Item) :
    applySort fav l "newest" = l.mergeSort fun a b => decide (b.addedAt ≤ a.addedAt) := rfl

/-- C3 (amended): on a list whose filenames are pairwise distinct (so the
`az`/`za` comparators have no ties), sorting the `"az"` result with `"za"`
yields its exact reverse; and the `"newest"` sort is a permutation of its
input ordered by `addedAt` descending. (With tied filenames the reverse
round-trip fails — the stable sort keeps tied items in input order, the
reverse swaps them; see the counterexample.) -/
theorem applySort_za_az_reverse_and_newest (fav : FavMap) (l : List Item)
    (hdist : l.Pairwise fun a b => a.filename ≠ b.filename) :
    applySort fav (applySort fav l "az") "za" = (applySort fav l "az").reverse ∧
    (applySort fav l "newest").Pairwise (fun a b => b.addedAt ≤ a.addedAt) ∧
    (applySort fav l "newest").Perm l := by
  set s := l.mergeSort (fun a b => strLe a.filename b.filename) with hs
  have hsort_s : s.Pairwise fun a b => strLe a.filename b.filename = true :=
    @List.sorted_mergeSort _ (fun a b : Item => strLe a.filename b.filename)
      (fun a b c hab hbc => lexLe_trans _ _ _ hab hbc)
      (fun a b => lexLe_total a.filename.data b.filename.data) l
  have hperm_s : s.Perm l := List.mergeSort_perm l _
  have hdist_s : s.Pairwise fun a b : Item => a.filename ≠ b.filename :=
    (List.Perm.pairwise_iff (R := fun a b : Item => a.filename ≠ b.filename)
      (fun h => Ne.symm h) hperm_s).mpr hdist
  set t := s.mergeSort (fun a b => strLe b.filename a.filename) with ht
  have hsort_t : t.Pairwise fun a b => strLe b.filename a.filename = true :=
    @List.sorted_mergeSort _ (fun a b : Item => strLe b.filename a.filename)
      (fun a b c hab hbc => lexLe_trans _ _ _ hbc hab)
      (fun a b => lexLe_total b.filename.data a.filename.data) s
  have hperm_t : t.Perm s := List.mergeSort_perm s _
  have hdist_t : t.Pairwise fun a b : Item => a.filename ≠ b.filename :=
    (List.Perm.pairwise_iff (R := fun a b : Item => a.filename ≠ b.filename)
      (fun h => Ne.symm h) hperm_t).mpr hdist_s
  have hstrict_t : t.Pairwise fun a b : Item =>
      strLe b.filename a.filename = true ∧ a.filename ≠ b.filename :=
    hsort_t.and hdist_t
  have hrev : s.reverse.Pairwise fun a b : Item =>
      strLe b.filename a.filename = true ∧ a.filename ≠ b.filename := by
    rw [List.pairwise_reverse]
    refine (hsort_s.and hdist_s).imp ?_
    rintro a b ⟨hle, hne⟩
    exact ⟨hle, fun e => hne e.symm⟩
  haveI hanti : IsAntisymm Item fun a b : Item =>
      strLe b.filename a.filename = true ∧ a.filename ≠ b.filename := ⟨by
    rintro a b ⟨hba, hne⟩ ⟨hab, _⟩
    exact absurd (String.ext (lexLe_antisymm _ _ hba hab)) fun e => hne e.symm⟩
  have hperm : t.Perm s.reverse := hperm_t.trans s.reverse_perm.symm
  have heq : t = s.reverse := List.eq_of_perm_of_sorted hperm hstrict_t hrev
  refine ⟨?_, ?_, ?_⟩
  · rw [applySort_az_eq, applySort_za_eq, ← hs, ← ht]
    exact heq
  · rw [applySort_newest_eq]
    have hsorted := @List.sorted_mergeSort _ (fun a b : Item => decide (b.addedAt ≤ a.addedAt))
      (fun a b c hab hbc => by
        simp only [decide_eq_true_eq] at hab hbc ⊢
        exact le_trans hbc hab)
      (fun a b => by
        simp only [Bool.or_eq_true, decide_eq_true_eq]
        exact le_total b.addedAt a.addedAt) l
    exact hsorted.imp fun h => of_decide_eq_true h
  · rw [applySort_newest_eq]
    exact List.mergeSort_perm l _

/-- Witness for C3: a 2-item list with distinct filenames. -/
theorem applySort_za_az_reverse_and_newest_witness :
    applySort favNone (applySort favNone [itW1, itW2] "az") "za" =
      (applySort favNone [itW1, itW2] "az").reverse ∧
    (applySort favNone [itW1, itW2] "newest").Pairwise (fun a b => b.addedAt ≤ a.addedAt) ∧
    (applySort favNone [itW1, itW2] "newest").Perm [itW1, itW2] :=
  applySort_za_az_reverse_and_newest favNone [itW1, itW2] (by decide)

/-- Counterexample to C3 as stated: two distinct items that tie on filename.
The stable sort keeps them in input order under both `"az"` and `"za"`, so
the `"za"` pass does not reverse the `"az"` result. -/
theorem sort_za_az_not_reverse_counterexample :
    applySort favNone (applySort favNone [itTieA, itTieB] "az") "za" ≠
      (applySort favNone [itTieA, itTieB] "az").reverse := by
  have h1 : applySort favNone [itTieA, itTieB] "az" = [itTieA, itTieB] := by
    rw [applySort_az_eq]
    exact List.mergeSort_of_sorted (by decide)
  have h2 : applySort favNone [itTieA, itTieB] "za" = [itTieA, itTieB] := by
    rw [applySort_za_eq]
    exact List.mergeSort_of_sorted (by decide)
  rw [h1, h2]
  decide

end CoffeeCanvas
